import Mathlib

/-!
Verification of the audio/connection core of the voice-device backend
(`src/services/supabase.ts` and the server entry file).

The development shallowly embeds:
* the TTS frame encoder (`createTtsBuffer` / `encodePcmChunk` / `reset`),
* the microphone `AudioFilter` cascade (`processAudioInPlace`),
* the TTS volume booster (`boostTtsVolumeInPlace`),
* the HTTP upgrade / authentication gate (`server.on("upgrade")`),
* the SIGINT shutdown coordinator,
* `getChatHistory` over a modelled external store.

Byte streams are `List Nat`; int16 sample buffers are `List ℤ`; the
IEEE-754 arithmetic of the filter is modelled exactly over `ℝ`, and the
volume factor over `ℚ`. The external opus encoder is an abstract
`List Nat → Option (List Nat)` (`none` models a thrown exception).
-/

namespace Server

/-! ## Frame encoder (`createTtsBuffer`)

Source: the `while (offset + TTS_FRAME_SIZE_BYTES <= combined.length)`
loop of `encodePcmChunk`. The loop is embedded as well-founded recursion
on the remaining bytes; the source's frame size is a positive startup
constant, and for `F = 0` (where the source loop would not terminate)
the embedding returns immediately — every theorem assumes `0 < F`. -/

/-- One pass of the encode loop of `encodePcmChunk`: walk `combined` in
windows of `F` bytes, encode each complete window with the external
transform `e` (a `none` result models a thrown, caught and logged
exception: the frame is dropped), and return the produced frames
together with the unconsumed tail. -/
def encodeChunkLoop (e : List Nat → Option (List Nat)) (F : Nat)
    (combined : List Nat) : List (List Nat) × List Nat :=
  if h : 0 < F ∧ F ≤ combined.length then
    let r := encodeChunkLoop e F (combined.drop F)
    (match e (combined.take F) with
     | some opusData => opusData :: r.1
     | none => r.1,
     r.2)
  else
    ([], combined)
termination_by combined.length
decreasing_by
  simp only [List.length_drop]
  omega

/-- The mutable closure state of `createTtsBuffer`: the `leftover` bytes. -/
structure TtsBuffer where
  leftover : List Nat
deriving DecidableEq, Repr

/-- Fresh `createTtsBuffer` state: `leftover = new Uint8Array(0)`. -/
def TtsBuffer.init : TtsBuffer := ⟨[]⟩

/-- The call `encodePcmChunk(rawPcm)`: concatenate `leftover` with the new bytes,
run the encode loop, store the tail back into `leftover`. -/
def encodePcmChunk (e : List Nat → Option (List Nat)) (F : Nat)
    (st : TtsBuffer) (rawPcm : List Nat) : List (List Nat) × TtsBuffer :=
  let combined := st.leftover ++ rawPcm
  let r := encodeChunkLoop e F combined
  (r.1, ⟨r.2⟩)

/-- The call `reset()`: clear `leftover`. -/
def TtsBuffer.reset (_st : TtsBuffer) : TtsBuffer := ⟨[]⟩

/-- The complete `F`-byte windows of a byte list, in order. -/
def chunksExact (F : Nat) (l : List Nat) : List (List Nat) :=
  if h : 0 < F ∧ F ≤ l.length then
    l.take F :: chunksExact F (l.drop F)
  else
    []
termination_by l.length
decreasing_by
  simp only [List.length_drop]
  omega

/-- The encode loop encodes exactly the complete windows (dropping the
failed ones, keeping input order) and leaves the tail past all complete
windows. -/
theorem encodeChunkLoop_eq (e : List Nat → Option (List Nat)) (F : Nat)
    (combined : List Nat) :
    (encodeChunkLoop e F combined).1 = (chunksExact F combined).filterMap e ∧
    (encodeChunkLoop e F combined).2 = combined.drop (F * (combined.length / F)) := by
  induction combined using encodeChunkLoop.induct e F with
  | case1 combined h ih =>
    rw [encodeChunkLoop, chunksExact]
    simp only [dif_pos h]
    obtain ⟨h1, h2⟩ := ih
    constructor
    · simp only [List.filterMap_cons]
      cases e (combined.take F) <;> simp [h1]
    · rw [h2, List.drop_drop]
      have hd : (combined.drop F).length = combined.length - F := by simp
      rw [hd]
      have hdiv : combined.length / F = (combined.length - F) / F + 1 :=
        Nat.div_eq_sub_div h.1 h.2
      have : F + F * ((combined.length - F) / F) = F * (combined.length / F) := by
        rw [hdiv, Nat.mul_add, Nat.mul_one]; omega
      rw [this]
  | case2 combined h =>
    rw [encodeChunkLoop, chunksExact]
    simp only [dif_neg h]
    have hlt : combined.length < F ∨ F = 0 := by omega
    rcases hlt with hlt | hF
    · have : F * (combined.length / F) = 0 := by
        rw [Nat.div_eq_of_lt hlt, Nat.mul_zero]
      simp [this]
    · subst hF
      simp

/-- The tail left by the encode loop has length `combined.length % F`. -/
theorem encodeChunkLoop_leftover_length (e : List Nat → Option (List Nat))
    (F : Nat) (hF : 0 < F) (combined : List Nat) :
    (encodeChunkLoop e F combined).2.length = combined.length % F := by
  rw [(encodeChunkLoop_eq e F combined).2]
  simp only [List.length_drop]
  have h := Nat.div_add_mod combined.length F
  have hle : F * (combined.length / F) ≤ combined.length := by omega
  omega

/-- Feed a list of PCM chunks one `encodePcmChunk` call at a time,
collecting all produced frames. -/
def feedAll (e : List Nat → Option (List Nat)) (F : Nat) :
    TtsBuffer → List (List Nat) → List (List Nat) × TtsBuffer
  | st, [] => ([], st)
  | st, c :: cs =>
    let r1 := encodePcmChunk e F st c
    let r2 := feedAll e F r1.2 cs
    (r1.1 ++ r2.1, r2.2)

/-- One `encodePcmChunk` call leaves `leftover` of length
`(previous leftover + new input) mod F`. -/
theorem encodePcmChunk_leftover_length (e : List Nat → Option (List Nat))
    (F : Nat) (hF : 0 < F) (st : TtsBuffer) (rawPcm : List Nat) :
    (encodePcmChunk e F st rawPcm).2.leftover.length =
      (st.leftover.length + rawPcm.length) % F := by
  unfold encodePcmChunk
  have h := encodeChunkLoop_leftover_length e F hF (st.leftover ++ rawPcm)
  simpa using h

/-- A single operation on the buffer: an `encodePcmChunk` call or `reset`. -/
inductive TtsOp where
  | append (chunk : List Nat)
  | reset
deriving DecidableEq, Repr

/-- Apply one operation to the buffer state. -/
def TtsBuffer.applyOp (e : List Nat → Option (List Nat)) (F : Nat)
    (st : TtsBuffer) : TtsOp → TtsBuffer
  | .append c => (encodePcmChunk e F st c).2
  | .reset => st.reset

/-- Apply a sequence of operations to the buffer state. -/
def TtsBuffer.applyOps (e : List Nat → Option (List Nat)) (F : Nat)
    (st : TtsBuffer) : List TtsOp → TtsBuffer
  | [] => st
  | op :: ops => TtsBuffer.applyOps e F (st.applyOp e F op) ops

theorem feedAll_leftover_length (e : List Nat → Option (List Nat)) (F : Nat)
    (hF : 0 < F) (st : TtsBuffer) (hst : st.leftover.length < F)
    (chunks : List (List Nat)) :
    (feedAll e F st chunks).2.leftover.length =
      (st.leftover.length + (chunks.map List.length).sum) % F := by
  induction chunks generalizing st with
  | nil =>
    simp only [feedAll, List.map_nil, List.sum_nil, Nat.add_zero]
    exact (Nat.mod_eq_of_lt hst).symm
  | cons c cs ih =>
    simp only [feedAll, List.map_cons, List.sum_cons]
    have h1 := encodePcmChunk_leftover_length e F hF st c
    have hlt : (encodePcmChunk e F st c).2.leftover.length < F := by
      rw [h1]; exact Nat.mod_lt _ hF
    rw [ih _ hlt, h1, Nat.mod_add_mod]
    ring_nf

/-- Every operation keeps `leftover` strictly shorter than `F`. -/
theorem applyOp_leftover_lt (e : List Nat → Option (List Nat)) (F : Nat)
    (hF : 0 < F) (st : TtsBuffer) (op : TtsOp) :
    (st.applyOp e F op).leftover.length < F := by
  cases op with
  | append c =>
    have h := encodePcmChunk_leftover_length e F hF st c
    simp only [TtsBuffer.applyOp]
    rw [h]
    exact Nat.mod_lt _ hF
  | reset =>
    simpa [TtsBuffer.applyOp, TtsBuffer.reset] using hF

theorem applyOps_leftover_lt (e : List Nat → Option (List Nat)) (F : Nat)
    (hF : 0 < F) (st : TtsBuffer) (hst : st.leftover.length < F)
    (ops : List TtsOp) :
    (st.applyOps e F ops).leftover.length < F := by
  induction ops generalizing st with
  | nil => simpa [TtsBuffer.applyOps] using hst
  | cons op ops ih =>
    simp only [TtsBuffer.applyOps]
    exact ih _ (applyOp_leftover_lt e F hF st op)

/-- Sample PCM chunks used to instantiate the frame-encoder theorems. -/
def sampleChunks : List (List Nat) := [[10, 11], [12, 13, 14], [15], [16, 17]]

/-- An always-succeeding external encode transform (identity). -/
def encodeAllOk : List Nat → Option (List Nat) := fun l => some l

/-- An external encode transform that throws on every window. -/
def encodeAllFail : List Nat → Option (List Nat) := fun _ => none

/-- C1: over any sequence of `encodePcmChunk` calls with fixed positive
frame size `F`, the bytes consumed into complete frames total
`F * (totalSupplied / F)`, the final `leftover` length is
`totalSupplied % F`, and both depend only on the total input, not on how
it is split across calls. -/
theorem encodePcmChunk_chunking_totals (e : List Nat → Option (List Nat))
    (F : Nat) (hF : 0 < F) (chunks : List (List Nat)) :
    (feedAll e F TtsBuffer.init chunks).2.leftover.length
        = (chunks.map List.length).sum % F ∧
      (chunks.map List.length).sum
          - (feedAll e F TtsBuffer.init chunks).2.leftover.length
        = F * ((chunks.map List.length).sum / F) := by
  have h0 : TtsBuffer.init.leftover.length < F := by
    simpa [TtsBuffer.init] using hF
  have h := feedAll_leftover_length e F hF TtsBuffer.init h0 chunks
  have hlen : TtsBuffer.init.leftover.length = 0 := rfl
  rw [hlen, Nat.zero_add] at h
  refine ⟨h, ?_⟩
  rw [h]
  have hdm := Nat.div_add_mod (chunks.map List.length).sum F
  omega

/-- Witness for the C1 theorem at `F = 3` and a concrete chunk split. -/
theorem encodePcmChunk_chunking_totals_witness :
    0 < 3 ∧
      ((feedAll encodeAllOk 3 TtsBuffer.init sampleChunks).2.leftover.length
          = (sampleChunks.map List.length).sum % 3 ∧
        (sampleChunks.map List.length).sum
            - (feedAll encodeAllOk 3 TtsBuffer.init sampleChunks).2.leftover.length
          = 3 * ((sampleChunks.map List.length).sum / 3)) :=
  ⟨by decide, encodePcmChunk_chunking_totals encodeAllOk 3 (by decide) sampleChunks⟩

/-- C4: after every prefix of any sequence of `append`/`reset` operations
starting from a fresh buffer, `0 ≤ len(leftover) < F` holds. -/
theorem ttsBuffer_leftover_invariant (e : List Nat → Option (List Nat))
    (F : Nat) (hF : 0 < F) (ops : List TtsOp) (k : Nat) :
    0 ≤ (TtsBuffer.init.applyOps e F (ops.take k)).leftover.length ∧
      (TtsBuffer.init.applyOps e F (ops.take k)).leftover.length < F := by
  refine ⟨Nat.zero_le _, ?_⟩
  have h0 : TtsBuffer.init.leftover.length < F := by
    simpa [TtsBuffer.init] using hF
  exact applyOps_leftover_lt e F hF TtsBuffer.init h0 (ops.take k)

/-- Witness for the C4 theorem on a concrete operation sequence. -/
theorem ttsBuffer_leftover_invariant_witness :
    0 < 2 ∧
      (0 ≤ (TtsBuffer.init.applyOps encodeAllOk 2
              (([TtsOp.append [1, 2, 3], TtsOp.reset, TtsOp.append [4]]).take 2)).leftover.length ∧
        (TtsBuffer.init.applyOps encodeAllOk 2
              (([TtsOp.append [1, 2, 3], TtsOp.reset, TtsOp.append [4]]).take 2)).leftover.length < 2) :=
  ⟨by decide,
    ttsBuffer_leftover_invariant encodeAllOk 2 (by decide)
      [TtsOp.append [1, 2, 3], TtsOp.reset, TtsOp.append [4]] 2⟩

/-- C5: in one `encodePcmChunk` call the produced frames are exactly the
successful encodings of the complete windows in input order — a window
on which the transform throws is dropped and later windows are still
encoded — the call always returns, and the leftover is advanced past
every complete window (failed ones included), independently of the
transform. -/
theorem encodePcmChunk_frame_failure_isolated
    (e eAlt : List Nat → Option (List Nat)) (F : Nat) (st : TtsBuffer)
    (rawPcm : List Nat) :
    (encodePcmChunk e F st rawPcm).1
        = (chunksExact F (st.leftover ++ rawPcm)).filterMap e ∧
      (encodePcmChunk e F st rawPcm).2.leftover
          = (st.leftover ++ rawPcm).drop
              (F * ((st.leftover ++ rawPcm).length / F)) ∧
      (encodePcmChunk e F st rawPcm).2 = (encodePcmChunk eAlt F st rawPcm).2 := by
  have h1 := encodeChunkLoop_eq e F (st.leftover ++ rawPcm)
  have h2 := encodeChunkLoop_eq eAlt F (st.leftover ++ rawPcm)
  refine ⟨h1.1, h1.2, ?_⟩
  simp only [encodePcmChunk]
  rw [h1.2, h2.2]

/-! ## Connection gate (`server.on("upgrade")`)

Source: the upgrade handler of the server file. The credential is
`url.searchParams.get("token") || req.headers.authorization?.replace("Bearer ", "") || ""`;
an empty credential is answered with a 401 carrying a `WWW-Authenticate`
challenge and the socket is destroyed; otherwise a token-scoped client
is built (`getSupabaseClient`) and `authenticateUser` (external, in
`utils.ts`) is awaited; any exception in the `try` block is answered
with a bare 401 and the socket destroyed; on success `wss.handleUpgrade`
emits exactly one `connection` event with `{ user, supabase, timestamp }`.
The two external effects — client construction (which reads the
environment and may throw) and the authentication transform — are
parameters returning `Except`. -/

/-- JS `a || b` where `a` is a nullable string: `null` and `""` are falsy. -/
def jsOrStr (a : Option String) (b : String) : String :=
  match a with
  | none => b
  | some s => if s = "" then b else s

/-- Remove the first occurrence of `pat` from a character list
(JS `String.prototype.replace` with a string pattern and empty
replacement); the list is unchanged when `pat` does not occur. -/
def removeFirstOccAux (pat : List Char) : List Char → List Char
  | [] => []
  | c :: rest =>
    if pat.isPrefixOf (c :: rest) then (c :: rest).drop pat.length
    else c :: removeFirstOccAux pat rest

/-- JS `s.replace(pat, "")`: remove the first occurrence of `pat` in `s`. -/
def jsRemoveFirst (pat s : String) : String :=
  ⟨removeFirstOccAux pat.data s.data⟩

/-- The literal pattern `"Bearer "` used on the authorization header. -/
def bearerPat : String := "Bearer "

/-- The 401 response written when no token is presented. -/
def resp401WWW : String :=
  "HTTP/1.1 401 Unauthorized\r\nWWW-Authenticate: Bearer realm=\"Access to WebSocket\"\r\n\r\n"

/-- The bare 401 response written on any other upgrade failure. -/
def resp401 : String := "HTTP/1.1 401 Unauthorized\r\n\r\n"

/-- The data-access client as scoped by `getSupabaseClient`: it carries
the `Authorization` header derived from the presented JWT. -/
structure ScopedClient where
  authzHeader : String
deriving DecidableEq, Repr

/-- The factory `getSupabaseClient(userJwt)`: a client whose global `Authorization`
header is `Bearer ${userJwt}`. -/
def getSupabaseClient (userJwt : String) : ScopedClient :=
  ⟨bearerPat ++ userJwt⟩

/-- A `connection` event as emitted by the handler: the context object
`{ user, supabase, timestamp }` handed to the orchestrator. -/
structure UpgradeEvent where
  user : String
  supabase : ScopedClient
  timestamp : String
deriving DecidableEq, Repr

/-- Observable outcome of one upgrade request: the raw strings written
to the socket, whether the socket was destroyed, and the emitted
`connection` events. -/
structure UpgradeOutcome where
  writes : List String
  destroyed : Bool
  events : List UpgradeEvent
deriving DecidableEq, Repr

/-- The credential extraction of the handler (line
`const token = url.searchParams.get("token") || req.headers.authorization?.replace("Bearer ", "") || ""`). -/
def extractToken (queryToken authzHeader : Option String) : String :=
  jsOrStr queryToken
    (jsOrStr (authzHeader.map (fun h => jsRemoveFirst bearerPat h)) "")

/-- The upgrade handler: extract the credential, reject an empty one
with the challenge 401, otherwise build the scoped client and
authenticate; any failure yields the bare 401; success emits one
`connection` event carrying the context. -/
def handleUpgrade (mkClient : String → Except String ScopedClient)
    (authUser : ScopedClient → String → Except String String)
    (queryToken authzHeader : Option String) (now : String) : UpgradeOutcome :=
  let token := extractToken queryToken authzHeader
  if token = "" then
    ⟨[resp401WWW], true, []⟩
  else
    match mkClient token with
    | .error _ => ⟨[resp401], true, []⟩
    | .ok supabase =>
      match authUser supabase token with
      | .error _ => ⟨[resp401], true, []⟩
      | .ok user => ⟨[], false, [⟨user, supabase, now⟩]⟩

/-- The infallible client factory of the source, lifted to `Except`. -/
def mkClientOk : String → Except String ScopedClient :=
  fun t => .ok (getSupabaseClient t)

/-- The credential extraction as the specification words it: the `token`
query parameter first; only when that parameter is absent, the
authorization header with a literal leading `Bearer ` stripped when
present. -/
def specExtractToken (queryToken authzHeader : Option String) : String :=
  match queryToken with
  | some q => q
  | none =>
    match authzHeader with
    | some h =>
      if bearerPat.data.isPrefixOf h.data then ⟨h.data.drop bearerPat.data.length⟩
      else h
    | none => ""

/-- An authorization header whose first `"Bearer "` occurrence is not a
leading one. -/
def oddHeader : String := "xBearer y"

/-- What the code actually extracts from `oddHeader`. -/
def oddExtract : String := "xy"

/-- C3: a request presenting a non-empty token on which the
authentication transform succeeds produces exactly one `connection`
event; its context carries the request timestamp and a client scoped to
the presented token (`Authorization: Bearer <token>`), so the
credential of the admitted context matches the presented token. -/
theorem upgrade_admission_unique
    (authUser : ScopedClient → String → Except String String)
    (queryToken authzHeader : Option String) (now user token : String)
    (htok : extractToken queryToken authzHeader = token)
    (hne : token ≠ "")
    (hauth : authUser (getSupabaseClient token) token = .ok user) :
    (handleUpgrade mkClientOk authUser queryToken authzHeader now).events
        = [⟨user, getSupabaseClient token, now⟩] ∧
      (handleUpgrade mkClientOk authUser queryToken authzHeader now).events.length = 1 ∧
      (getSupabaseClient token).authzHeader = bearerPat ++ token := by
  have h : handleUpgrade mkClientOk authUser queryToken authzHeader now
      = ⟨[], false, [⟨user, getSupabaseClient token, now⟩]⟩ := by
    unfold handleUpgrade mkClientOk
    rw [htok]
    simp [hne, hauth]
  rw [h]
  exact ⟨rfl, rfl, rfl⟩

/-- A concrete valid token. -/
def tokenEx : String := "valid-token"

/-- A concrete authenticated user identity. -/
def userEx : String := "user-1"

/-- A concrete request timestamp. -/
def nowEx : String := "2024-01-01T00:00:00.000Z"

/-- An authentication transform that accepts every credential. -/
def authOkEx : ScopedClient → String → Except String String :=
  fun _ _ => .ok userEx

/-- A concrete failure message. -/
def errEx : String := "boom"

/-- An authentication transform that rejects every credential. -/
def authFailEx : ScopedClient → String → Except String String :=
  fun _ _ => .error errEx

/-- A client factory that throws. -/
def mkClientFailEx : String → Except String ScopedClient :=
  fun _ => .error errEx

/-- Witness for the C3 theorem at a concrete token and transform. -/
theorem upgrade_admission_unique_witness :
    (handleUpgrade mkClientOk authOkEx (some tokenEx) none nowEx).events
        = [⟨userEx, getSupabaseClient tokenEx, nowEx⟩] ∧
      (handleUpgrade mkClientOk authOkEx (some tokenEx) none nowEx).events.length = 1 ∧
      (getSupabaseClient tokenEx).authzHeader = bearerPat ++ tokenEx :=
  upgrade_admission_unique authOkEx (some tokenEx) none nowEx userEx tokenEx
    (by decide) (by decide) rfl

/-- C6 counterexample: on a request with no query token and the header
`"xBearer y"`, the code removes the first occurrence of `"Bearer "`
anywhere in the header and proceeds with credential `"xy"`, whereas the
claim's prefix-stripping extraction yields `"xBearer y"` — the claim as
stated is false. -/
theorem extractToken_strips_inner_occurrence :
    extractToken none (some oddHeader) = oddExtract ∧
      specExtractToken none (some oddHeader) = oddHeader ∧
      oddExtract ≠ oddHeader := by
  refine ⟨?_, ?_, by decide⟩ <;> decide

/-- The extraction as the amended claim words it: the query parameter
when present and non-empty; otherwise the authorization header with the
first occurrence of the substring `"Bearer "` removed; empty when the
header is also absent. -/
def amendedExtractToken (queryToken authzHeader : Option String) : String :=
  match queryToken with
  | some q =>
    if q = "" then
      match authzHeader with
      | some h => jsRemoveFirst bearerPat h
      | none => ""
    else q
  | none =>
    match authzHeader with
    | some h => jsRemoveFirst bearerPat h
    | none => ""

/-- C6 (amended): the credential is the non-empty query token when one
is present, else the authorization header with the first occurrence of
the substring `"Bearer "` removed; whenever this yields an empty
credential the handler writes a 401 response with a `WWW-Authenticate`
challenge, destroys the transport, and emits no `connection` event. -/
theorem upgrade_missing_token_rejected
    (mkClient : String → Except String ScopedClient)
    (authUser : ScopedClient → String → Except String String)
    (queryToken authzHeader : Option String) (now : String) :
    extractToken queryToken authzHeader
        = amendedExtractToken queryToken authzHeader ∧
      (extractToken queryToken authzHeader = "" →
        handleUpgrade mkClient authUser queryToken authzHeader now
          = ⟨[resp401WWW], true, []⟩) := by
  constructor
  · unfold extractToken amendedExtractToken jsOrStr
    cases queryToken with
    | none =>
      cases authzHeader with
      | none => rfl
      | some h =>
        simp only [Option.map_some]
        by_cases hh : jsRemoveFirst bearerPat h = "" <;> simp [hh]
    | some q =>
      by_cases hq : q = ""
      · subst hq
        cases authzHeader with
        | none => rfl
        | some h =>
          simp only [Option.map_some]
          by_cases hh : jsRemoveFirst bearerPat h = "" <;> simp [hh]
      · simp [hq]
  · intro h
    unfold handleUpgrade
    simp [h]

/-- Witness for the amended C6 theorem: no query token and no header. -/
theorem upgrade_missing_token_rejected_witness :
    handleUpgrade mkClientOk authOkEx none none nowEx
      = ⟨[resp401WWW], true, []⟩ :=
  (upgrade_missing_token_rejected mkClientOk authOkEx none none nowEx).2 (by decide)

/-- C7: once a non-empty credential was presented, every failure —
client construction throwing or the authentication transform rejecting —
produces the identical outcome: the bare 401 is written, the transport
is destroyed, and no `connection` event is emitted, so the wire response
does not reveal the internal cause. -/
theorem upgrade_failures_converge
    (mkClient : String → Except String ScopedClient)
    (authUser : ScopedClient → String → Except String String)
    (queryToken authzHeader : Option String) (now : String)
    (hne : extractToken queryToken authzHeader ≠ "")
    (hfail :
      (∃ msg, mkClient (extractToken queryToken authzHeader) = .error msg) ∨
        (∃ c msg, mkClient (extractToken queryToken authzHeader) = .ok c ∧
          authUser c (extractToken queryToken authzHeader) = .error msg)) :
    handleUpgrade mkClient authUser queryToken authzHeader now
      = ⟨[resp401], true, []⟩ := by
  unfold handleUpgrade
  rcases hfail with ⟨msg, hmk⟩ | ⟨c, msg, hmk, hauth⟩ <;> simp [hne, hmk]
  simp [hauth]

/-- Witness for the C7 theorem: a concrete token with a rejecting
authentication transform. -/
theorem upgrade_failures_converge_witness :
    handleUpgrade mkClientOk authFailEx (some tokenEx) none nowEx
      = ⟨[resp401], true, []⟩ :=
  upgrade_failures_converge mkClientOk authFailEx (some tokenEx) none nowEx
    (by decide)
    (Or.inr ⟨getSupabaseClient tokenEx, errEx, rfl, rfl⟩)

/-! ## Microphone filter (`AudioFilter`)

Source: class `AudioFilter`. The IEEE-754 double arithmetic of the
filter is modelled exactly over `ℝ` (the recurrence and the claim are
about the numeric algorithm, which is identical formula-for-formula);
the int16 view of the byte buffer is a `List ℤ`. Writing the clipped
value back into the `Int16Array` truncates toward zero. -/

/-- The per-instance state of `AudioFilter`: the two fixed alphas and
the three running filter values. -/
structure AudioFilter where
  highpassAlpha : ℝ
  lowpassAlpha : ℝ
  prevInputHighpass : ℝ
  prevOutputHighpass : ℝ
  prevOutputLowpass : ℝ

/-- The constructor: cutoffs 300 Hz and 3500 Hz, alphas derived from
the sample rate, running values zeroed. -/
noncomputable def AudioFilter.init (sampleRate : ℝ) : AudioFilter :=
  { highpassAlpha := 1 / (1 + Real.tan (Real.pi * 300 / sampleRate))
    lowpassAlpha := Real.tan (Real.pi * 3500 / sampleRate)
        / (1 + Real.tan (Real.pi * 3500 / sampleRate))
    prevInputHighpass := 0
    prevOutputHighpass := 0
    prevOutputLowpass := 0 }

open Classical in
/-- Truncation toward zero: the integer conversion applied when the
clipped value is stored back into the `Int16Array`. -/
noncomputable def truncR (r : ℝ) : ℤ := if 0 ≤ r then ⌊r⌋ else ⌈r⌉

/-- One iteration of the `processAudioInPlace` loop, exactly as the
source computes it: highpass, lowpass, gain `* 8`, clip, store. -/
noncomputable def AudioFilter.processSample (st : AudioFilter) (sample : ℤ) :
    AudioFilter × ℤ :=
  let inHigh : ℝ := (sample : ℝ)
  let outHigh := st.highpassAlpha * (st.prevOutputHighpass + inHigh - st.prevInputHighpass)
  let inLow := outHigh
  let outLow := st.lowpassAlpha * inLow + (1 - st.lowpassAlpha) * st.prevOutputLowpass
  let finalOut := outLow * 8
  let clipped := max (-32768) (min 32767 finalOut)
  ({ st with
      prevInputHighpass := inHigh
      prevOutputHighpass := outHigh
      prevOutputLowpass := outLow },
    truncR clipped)

/-- The method `processAudioInPlace`: run the per-sample loop left to right over
the buffer, threading the instance state, and collect the stored
values. -/
noncomputable def AudioFilter.processAudioInPlace :
    AudioFilter → List ℤ → AudioFilter × List ℤ
  | st, [] => (st, [])
  | st, x :: rest =>
    let r1 := st.processSample x
    let r2 := AudioFilter.processAudioInPlace r1.1 rest
    (r2.1, r1.2 :: r2.2)

/-- The per-sample algorithm exactly as the specification words it:
`yHP = highpassAlpha · (prevOutputHP + x − prevInputHP)` with state
updates, `yLP = lowpassAlpha · yHP + (1 − lowpassAlpha) · prevOutputLP`
with state update, gain 8, hard clip, integer truncation. -/
noncomputable def specFilterStep (st : AudioFilter) (x : ℤ) : AudioFilter × ℤ :=
  let yHP := st.highpassAlpha * (st.prevOutputHighpass + (x : ℝ) - st.prevInputHighpass)
  let yLP := st.lowpassAlpha * yHP + (1 - st.lowpassAlpha) * st.prevOutputLowpass
  let out := yLP * 8
  ({ st with
      prevInputHighpass := (x : ℝ)
      prevOutputHighpass := yHP
      prevOutputLowpass := yLP },
    truncR (max (-32768) (min 32767 out)))

/-- C2: `processAudioInPlace` applies to every sample, in order, exactly
the specified two-pole cascade — highpass difference form, lowpass, gain
8, hard clip to `[-32768, 32767]` and integer truncation — with the
specified state updates; the constructed alphas are
`1 / (1 + tan(π·300/Fs))` and `tan(π·3500/Fs) / (1 + tan(π·3500/Fs))`;
and the filter state persists across successive calls on the same
instance: processing a concatenation equals processing the pieces in
sequence through the carried state. -/
theorem audioFilter_processAudioInPlace_spec :
    (∀ (st : AudioFilter) (x : ℤ), st.processSample x = specFilterStep st x) ∧
      (∀ Fs : ℝ, (AudioFilter.init Fs).highpassAlpha
            = 1 / (1 + Real.tan (Real.pi * 300 / Fs)) ∧
          (AudioFilter.init Fs).lowpassAlpha
            = Real.tan (Real.pi * 3500 / Fs)
                / (1 + Real.tan (Real.pi * 3500 / Fs))) ∧
      (∀ (st : AudioFilter) (b1 b2 : List ℤ),
        st.processAudioInPlace (b1 ++ b2)
          = (((st.processAudioInPlace b1).1.processAudioInPlace b2).1,
              (st.processAudioInPlace b1).2
                ++ ((st.processAudioInPlace b1).1.processAudioInPlace b2).2)) := by
  refine ⟨fun _ _ => rfl, fun _ => ⟨rfl, rfl⟩, fun st b1 b2 => ?_⟩
  induction b1 generalizing st with
  | nil => simp [AudioFilter.processAudioInPlace]
  | cons x b1 ih =>
    simp only [List.cons_append, AudioFilter.processAudioInPlace, List.append_eq]
    rw [ih]

/-! ## Volume booster (`boostTtsVolumeInPlace`)

Source: `boostTtsVolumeInPlace(buffer, factor)`. The int16 view of the
byte buffer is modelled as a `List ℤ`; the IEEE-754 `factor` and the
per-sample products are modelled exactly over `ℚ` (the constants of the
claims — `2.0`, `-1`, `0` — and all int16 values are exact doubles).
Writing a number into an `Int16Array` cell truncates it toward zero;
after the clip the value is in int16 range, so no wrap-around occurs. -/

/-- JS `Math.max(-32768, Math.min(32767, v))`. -/
def clip16 (v : ℚ) : ℚ := max (-32768) (min 32767 v)

/-- Truncation toward zero, the integer conversion JS applies when a
number is stored into an `Int16Array` cell (after the clip the modulo
2^16 step is the identity). -/
def truncToInt (q : ℚ) : ℤ := if 0 ≤ q then ⌊q⌋ else ⌈q⌉

/-- The function `boostTtsVolumeInPlace`: clamp the factor to be non-negative, then
scale, clip and store back each sample. -/
def boostTtsVolumeInPlace (buffer : List ℤ) (factor : ℚ) : List ℤ :=
  let safeFactor := max 0 factor
  buffer.map (fun s : ℤ => truncToInt (clip16 ((s : ℚ) * safeFactor)))

/-- The per-sample transform as the claim words it: the integer
truncation of `sample * max 0 factor` clipped to `[-32768, 32767]`. -/
def specBoostSample (factor : ℚ) (sample : ℤ) : ℤ :=
  truncToInt (clip16 ((sample : ℚ) * max 0 factor))

/-- C8: `boostTtsVolumeInPlace` maps every sample to the truncated clip
of `sample * max 0 factor`; a sample of `20000` with factor `2.0`
becomes `32767`; and factor `-1` produces the same all-zero buffer as
factor `0`. -/
theorem boostTtsVolumeInPlace_spec :
    (∀ buffer factor, boostTtsVolumeInPlace buffer factor
        = buffer.map (specBoostSample factor)) ∧
      boostTtsVolumeInPlace [20000] 2 = [32767] ∧
      (∀ buffer, boostTtsVolumeInPlace buffer (-1) = boostTtsVolumeInPlace buffer 0 ∧
        boostTtsVolumeInPlace buffer 0 = buffer.map (fun _ => 0)) := by
  refine ⟨fun _ _ => rfl, ?_, fun buffer => ⟨?_, ?_⟩⟩
  · norm_num [boostTtsVolumeInPlace, clip16, truncToInt, max_def, min_def]
  · simp only [boostTtsVolumeInPlace]
    refine List.map_congr_left fun s _ => ?_
    norm_num [clip16, truncToInt, max_def, min_def]
  · simp only [boostTtsVolumeInPlace]
    refine List.map_congr_left fun s _ => ?_
    norm_num [clip16, truncToInt, max_def, min_def]

/-! ## Shutdown coordinator (`Deno.addSignalListener("SIGINT", ...)`)

Source: the SIGINT handler. Both `server.close` and `wss.close` are
issued at signal time; `checkExit` increments `serversClosed` on each
close callback (whether or not it reported an error) and calls
`Deno.exit(0)` once the count reaches `totalServers`; an independent
`setTimeout` of 5000 ms calls `Deno.exit(1)`. The single-threaded event
loop delivers the close callbacks and the timer callback in some order;
the model quantifies over every such delivery order, and `Deno.exit`
stops the process, so events after the first exit have no effect. -/

/-- An event delivered to the shutdown handler after the signal: one
listener's close callback (`failed` records a non-null error argument),
or the firing of the grace timer. -/
inductive ShutEvent where
  | listenerClosed (failed : Bool)
  | graceTimeout
deriving DecidableEq, Repr

/-- The constant `totalServers = 2` — HTTP and WebSocket. -/
def totalServers : Nat := 2

/-- The grace period passed to `setTimeout`, in milliseconds. -/
def gracePeriodMs : Nat := 5000

/-- Coordinator state: the `serversClosed` counter and the exit status
once `Deno.exit` has run. -/
structure ShutState where
  serversClosed : Nat
  exitStatus : Option Nat
deriving DecidableEq, Repr

/-- State right after the signal: counter zero, process alive. -/
def ShutState.init : ShutState := ⟨0, none⟩

/-- Deliver one event: after `Deno.exit` nothing runs; a close callback
runs `checkExit` (count, then exit 0 at `totalServers`) regardless of a
reported error; the timer callback exits with status 1. -/
def shutdownStep (st : ShutState) (ev : ShutEvent) : ShutState :=
  match st.exitStatus with
  | some _ => st
  | none =>
    match ev with
    | .listenerClosed _ =>
      let c := st.serversClosed + 1
      if totalServers ≤ c then ⟨c, some 0⟩ else ⟨c, none⟩
    | .graceTimeout => ⟨st.serversClosed, some 1⟩

/-- Deliver a whole event sequence from the post-signal state. -/
def runShutdown (events : List ShutEvent) : ShutState :=
  events.foldl shutdownStep ShutState.init

/-- Replace every close callback's error by "no error". -/
def scrubFailure : ShutEvent → ShutEvent
  | .listenerClosed _ => .listenerClosed false
  | .graceTimeout => .graceTimeout

/-- The outcome as the claim words it: scanning the delivered events,
the first trigger wins — a grace timeout exits with status 1, and the
close completion that reaches the listener count exits with status 0. -/
def specShutdownOutcome : Nat → List ShutEvent → Option Nat
  | _, [] => none
  | closedSoFar, ev :: rest =>
    match ev with
    | .graceTimeout => some 1
    | .listenerClosed _ =>
      if totalServers ≤ closedSoFar + 1 then some 0
      else specShutdownOutcome (closedSoFar + 1) rest

theorem foldl_shutdownStep_exited (events : List ShutEvent) (c s : Nat) :
    events.foldl shutdownStep ⟨c, some s⟩ = ⟨c, some s⟩ := by
  induction events with
  | nil => rfl
  | cons ev rest ih => simpa [shutdownStep] using ih

theorem foldl_shutdownStep_spec (events : List ShutEvent) (c : Nat) :
    (events.foldl shutdownStep ⟨c, none⟩).exitStatus
      = specShutdownOutcome c events := by
  induction events generalizing c with
  | nil => rfl
  | cons ev rest ih =>
    cases ev with
    | graceTimeout =>
      simp only [List.foldl_cons, shutdownStep, specShutdownOutcome]
      rw [foldl_shutdownStep_exited]
    | listenerClosed failed =>
      simp only [List.foldl_cons, shutdownStep, specShutdownOutcome]
      by_cases h : totalServers ≤ c + 1
      · simp only [if_pos h]
        rw [foldl_shutdownStep_exited]
      · simp only [if_neg h]
        exact ih (c + 1)

/-- C9: for every delivery order of close callbacks and the grace-timer
callback, the process exits with status 0 exactly when the completion
count reaches the listener count before the timer fires, the timer
firing first exits with status 1, the first trigger wins, and a close
callback reporting a failure counts toward completion exactly like a
successful one. -/
theorem shutdown_first_trigger_wins :
    (∀ events : List ShutEvent,
        runShutdown events = runShutdown (events.map scrubFailure)) ∧
      (∀ events : List ShutEvent,
        (runShutdown events).exitStatus = specShutdownOutcome 0 events) := by
  constructor
  · intro events
    unfold runShutdown
    generalize ShutState.init = st
    induction events generalizing st with
    | nil => rfl
    | cons ev rest ih =>
      have hstep : shutdownStep st (scrubFailure ev) = shutdownStep st ev := by
        cases ev <;> rfl
      simp only [List.map_cons, List.foldl_cons, hstep]
      exact ih _
  · intro events
    exact foldl_shutdownStep_spec events 0

/-! ## Chat history (`getChatHistory`)

Source: `getChatHistory` in `supabase.ts`. The function builds a query —
`conversations` filtered by `user_id`, optionally by `personality_key`,
optionally (for doctors) by `created_at >= twoHoursAgo` — ordered by
`created_at` descending with `limit(20)`, awaits it, throws on a
reported error, and returns `[]` from the surrounding `catch` on any
failure. The store behind the query is an external collaborator. -/

/-- A row of the `conversations` table as the code reads it. -/
structure IConversation where
  role : String
  content : String
  created_at : Nat
  user_id : String
  personality_key : Option String
deriving DecidableEq, Repr

/-- Descending order on `created_at`. -/
def createdGe (a b : IConversation) : Prop := b.created_at ≤ a.created_at

instance : DecidableRel createdGe := fun a b => Nat.decLe b.created_at a.created_at

instance : IsTotal IConversation createdGe :=
  ⟨fun a b => Nat.le_total b.created_at a.created_at⟩

instance : IsTrans IConversation createdGe :=
  ⟨fun _ _ _ hab hbc => le_trans hbc hab⟩

/-- The row predicate of the built query: `eq('user_id', userId)`,
`eq('personality_key', pk)` when supplied, `gte('created_at', t)` when
supplied. -/
def rowMatches (userId : String) (personalityKey : Option String)
    (minCreated : Option Nat) (c : IConversation) : Bool :=
  (c.user_id == userId)
    && (match personalityKey with
        | some pk => c.personality_key == some pk
        | none => true)
    && (match minCreated with
        | some t => decide (t ≤ c.created_at)
        | none => true)

/-- Modelled from the spec: the external store reached through the
scoped client is not part of the repository (§6 treats all data access
as an external collaborator); the select built by `getChatHistory` —
the filters above with `order('created_at', descending)` and
`limit(20)` — is given its standard semantics: matching rows, sorted by
`created_at` descending, truncated to 20. -/
def runConversationQuery (table : List IConversation) (userId : String)
    (personalityKey : Option String) (minCreated : Option Nat) :
    List IConversation :=
  ((table.filter (rowMatches userId personalityKey minCreated)).insertionSort
      createdGe).take 20

/-- The function `getChatHistory`: `queryFails` models a reported query error or any
other exception inside the `try` (the `catch` returns `[]`);
`twoHoursAgo` is the timestamp two hours before the call. -/
def getChatHistory (table : List IConversation) (queryFails : Bool)
    (userId : String) (personalityKey : Option String) (isDoctor : Bool)
    (twoHoursAgo : Nat) : List IConversation :=
  if queryFails then []
  else
    runConversationQuery table userId personalityKey
      (if isDoctor then some twoHoursAgo else none)

/-- C10: `getChatHistory` never propagates an error — any query failure
or exception yields `[]` — and on success it returns at most 20 rows,
each belonging to the given user and matching the personality key when
one is supplied, sorted by `created_at` descending. -/
theorem getChatHistory_safe_bounded_ordered (table : List IConversation)
    (queryFails : Bool) (userId : String) (personalityKey : Option String)
    (isDoctor : Bool) (twoHoursAgo : Nat) :
    (queryFails = true →
        getChatHistory table queryFails userId personalityKey isDoctor
          twoHoursAgo = []) ∧
      (getChatHistory table queryFails userId personalityKey isDoctor
          twoHoursAgo).length ≤ 20 ∧
      (∀ c ∈ getChatHistory table queryFails userId personalityKey isDoctor
          twoHoursAgo,
        c.user_id = userId ∧
          ∀ pk, personalityKey = some pk → c.personality_key = some pk) ∧
      List.Sorted createdGe
        (getChatHistory table queryFails userId personalityKey isDoctor
          twoHoursAgo) := by
  cases queryFails with
  | true =>
    refine ⟨fun _ => rfl, ?_, ?_, ?_⟩ <;> simp [getChatHistory]
  | false =>
    simp only [getChatHistory, if_neg Bool.false_ne_true, runConversationQuery]
    refine ⟨fun h => absurd h (by simp), List.length_take_le _ _, ?_, ?_⟩
    · intro c hc
      have hmem : c ∈ (table.filter
          (rowMatches userId personalityKey
            (if isDoctor then some twoHoursAgo else none))).insertionSort
            createdGe :=
        List.mem_of_mem_take hc
      rw [(List.perm_insertionSort createdGe _).mem_iff] at hmem
      have hprop := (List.mem_filter.mp hmem).2
      simp only [rowMatches, Bool.and_eq_true, beq_iff_eq] at hprop
      refine ⟨hprop.1.1, fun pk hpk => ?_⟩
      subst hpk
      simpa using hprop.1.2
    · exact List.Pairwise.sublist (List.take_sublist _ _)
        (List.sorted_insertionSort createdGe _)

/-- A concrete user id. -/
def uidEx : String := "u1"

/-- A concrete personality key. -/
def pkEx : String := "p1"

/-- A concrete conversation role. -/
def roleEx : String := "assistant"

/-- A concrete conversation content. -/
def contentEx : String := "hello"

/-- A matching conversation row. -/
def convEx : IConversation := ⟨roleEx, contentEx, 5, uidEx, some pkEx⟩

/-- A row of a different user. -/
def convOtherEx : IConversation := ⟨roleEx, contentEx, 9, pkEx, none⟩

/-- A two-row table. -/
def tableEx : List IConversation := [convOtherEx, convEx]

/-- Witness for the C10 theorem: the failure branch returns `[]`, and
the membership conjunct applied to a concrete returned row discharges
its hypotheses. -/
theorem getChatHistory_safe_bounded_ordered_witness :
    getChatHistory tableEx true uidEx (some pkEx) false 0 = [] ∧
      (convEx.user_id = uidEx ∧ convEx.personality_key = some pkEx) :=
  have h := (getChatHistory_safe_bounded_ordered tableEx false uidEx
    (some pkEx) false 0).2.2.1 convEx (by decide)
  ⟨(getChatHistory_safe_bounded_ordered tableEx true uidEx (some pkEx) false
      0).1 rfl,
    ⟨h.1, h.2 pkEx rfl⟩⟩
end Server
